import Mathlib

/-!
Verification development for the risk-analysis server
(src/server/storage.ts of the Akaldeep Analyser repository).

Prices and monetary amounts are modelled as exact rational numbers; the
fields of the metrics bundle that involve square roots live in the reals.
All stateless computations of the source are embedded as pure Lean
functions; the network collaborators (quote, summary, history fetches)
become explicit oracle arguments.
-/

namespace Analyser

/-! ## Regression engine: calculateFinancialMetrics (storage.ts lines 109-156) -/

/-- Simple returns of one price series: the loop at lines 115-120 pushes
the value obtained by dividing the difference of each adjacent pair by the
earlier price, for every index from 1 to length - 1, with no exclusion of
any point. -/
def simpleReturns (prices : List ℚ) : List ℚ :=
  List.zipWith (fun prev cur => (cur - prev) / prev) prices prices.tail

/-- Arithmetic mean, lines 125-126: sum of the list divided by its length. -/
def mean (l : List ℚ) : ℚ := l.sum / (l.length : ℚ)

/-- Population covariance sum of lines 128-138: the sum over all indices of
the product of the two centered values. -/
def covSum (xs ys : List ℚ) : ℚ :=
  (List.zipWith (fun x y => (x - mean xs) * (y - mean ys)) xs ys).sum

/-- Population variance sum of lines 128-138: the sum of squared deviations
from the mean. -/
def varSum (xs : List ℚ) : ℚ :=
  (xs.map (fun x => (x - mean xs) ^ 2)).sum

/-- The metrics bundle returned at lines 149-155. The beta and alpha fields
are rational functions of the inputs; correlation, rSquared and volatility
involve square roots and are modelled in the reals. -/
structure Metrics where
  beta : ℚ
  alpha : ℚ
  correlation : ℝ
  rSquared : ℝ
  volatility : ℝ

/-- The populated bundle built in the final branch of
calculateFinancialMetrics, lines 125-155, as a function of the two price
series. -/
noncomputable def metricsOf (stockPrices marketPrices : List ℚ) : Metrics :=
  let stockReturns := simpleReturns stockPrices
  let marketReturns := simpleReturns marketPrices
  let n := stockReturns.length
  let meanStock := mean stockReturns
  let meanMarket := mean marketReturns
  let covariance := covSum stockReturns marketReturns
  let varianceMarket := varSum marketReturns
  let varianceStock := varSum stockReturns
  let beta := covariance / varianceMarket
  let correlation : ℝ :=
    (covariance : ℝ) / (Real.sqrt (varianceStock : ℝ) * Real.sqrt (varianceMarket : ℝ))
  { beta := beta
    alpha := meanStock - beta * meanMarket
    correlation := correlation
    rSquared := correlation ^ 2
    volatility := Real.sqrt ((varianceStock : ℝ) / ((n : ℝ) - 1)) * Real.sqrt 252 }

/-- Embedding of calculateFinancialMetrics, lines 109-156: null when the
lengths differ or the input is shorter than 2 (line 110), null when fewer
than 2 returns were derived (line 123), null when either variance sum is
exactly zero (line 140), otherwise the populated bundle. -/
noncomputable def calculateFinancialMetrics (stockPrices marketPrices : List ℚ) :
    Option Metrics :=
  if stockPrices.length ≠ marketPrices.length ∨ stockPrices.length < 2 then none
  else if (simpleReturns stockPrices).length < 2 then none
  else if varSum (simpleReturns marketPrices) = 0 ∨ varSum (simpleReturns stockPrices) = 0 then
    none
  else some (metricsOf stockPrices marketPrices)

/-! ## Time-series alignment (storage.ts lines 247-255) -/

/-- One row of a fetched daily price history: the calendar-date key derived
from the timestamp, and the close, which may be missing. -/
structure Row where
  date : String
  close : Option ℚ
deriving DecidableEq

/-- JavaScript truthiness of an optional numeric value: a missing value and
zero are falsy, every other number, negative numbers included, is truthy. -/
def numTruthy : Option ℚ → Bool
  | none => false
  | some x => decide (x ≠ 0)

/-- The date-keyed benchmark close lookup built at lines 247-248: set is
called for every market row whose close is truthy, so get returns the close
of the last such row carrying the requested date, and nothing otherwise. -/
def dateMapGet (marketData : List Row) (s : String) : Option ℚ :=
  marketData.foldl
    (fun acc r => if r.date = s ∧ numTruthy r.close then r.close else acc) none

/-- Lines 250-255: walk the stock series in order and emit the pair of
closes whenever the market lookup for the same date and the stock close are
both truthy. The first component is the stock close, the second the market
close. -/
def alignSeries (stockData marketData : List Row) : List (ℚ × ℚ) :=
  stockData.filterMap (fun d =>
    match dateMapGet marketData d.date, d.close with
    | some mPrice, some c => if mPrice ≠ 0 ∧ c ≠ 0 then some (c, mPrice) else none
    | some _, none => none
    | none, _ => none)

/-- Specification view of the same walk: the date of every emitted pair. -/
def alignDates (stockData marketData : List Row) : List String :=
  stockData.filterMap (fun d =>
    match dateMapGet marketData d.date, d.close with
    | some mPrice, some c => if mPrice ≠ 0 ∧ c ≠ 0 then some d.date else none
    | some _, none => none
    | none, _ => none)

/-! ## Quotes, fundamentals and currency normalization
(storage.ts lines 260-289 for the target, 308-332 for a peer) -/

/-- The fields of a quote response that the route reads. -/
structure QuoteData where
  currency : Option String
  marketCap : Option ℚ
  longName : Option String
  shortName : Option String
deriving DecidableEq

/-- The financialData module fields that the route reads. -/
structure FinancialData where
  financialCurrency : Option String
  totalRevenue : Option ℚ
  ebitda : Option ℚ
  debtToEquity : Option ℚ
  profitMargins : Option ℚ
deriving DecidableEq

/-- The defaultKeyStatistics module fields that the route reads. -/
structure KeyStatistics where
  enterpriseValue : Option ℚ
  priceToBook : Option ℚ
deriving DecidableEq

/-- The summaryDetail module fields that the route reads. -/
structure SummaryDetailData where
  trailingPE : Option ℚ
  dividendYield : Option ℚ
deriving DecidableEq

/-- A quoteSummary response: each module may be missing. -/
structure FinancialsBundle where
  financialData : Option FinancialData
  defaultKeyStatistics : Option KeyStatistics
  summaryDetail : Option SummaryDetailData
deriving DecidableEq

/-- JavaScript `a OR b` for an optional string: missing and empty are falsy. -/
def strOr (a : Option String) (b : String) : String :=
  match a with
  | some s => if s = "" then b else s
  | none => b

/-- JavaScript `a OR 0` for an optional number: missing gives zero. -/
def numOr0 (a : Option ℚ) : ℚ := a.getD 0

/-- Line 263: the trading currency is the quote currency, INR when absent. -/
def tradingCurrencyOf (quote : Option QuoteData) : String :=
  strOr (quote.bind QuoteData.currency) "INR"

/-- Line 264: the reporting currency is the financial-data currency, falling
back to the trading currency. -/
def financialCurrencyOf (financials : Option FinancialsBundle)
    (tradingCurrency : String) : String :=
  strOr ((financials.bind FinancialsBundle.financialData).bind FinancialData.financialCurrency)
    tradingCurrency

/-- The target payload assembled at lines 269-289. -/
structure TargetData where
  ticker : String
  name : String
  marketIndex : String
  beta : ℚ
  volatility : ℝ
  alpha : ℚ
  correlation : ℝ
  rSquared : ℝ
  period : String
  marketCap : ℚ
  revenue : ℚ
  enterpriseValue : ℚ
  evRevenueMultiple : Option ℚ
  peRatio : Option ℚ
  pbRatio : Option ℚ
  dividendYield : Option ℚ
  ebitda : ℚ
  debtToEquity : Option ℚ
  profitMargin : Option ℚ

/-- Lines 260-289: the target payload. Price-based fields are scaled by the
trading-currency factor, report-based fields by the reporting-currency
factor; each factor is the exchange rate exactly when its currency is USD
and one otherwise. -/
def buildTargetData (exchange fullTicker tickerInput : String) (period : Option String)
    (metrics : Metrics) (quote : Option QuoteData) (financials : Option FinancialsBundle)
    (exchangeRate : ℚ) : TargetData :=
  let tradingCurrency := tradingCurrencyOf quote
  let financialCurrency := financialCurrencyOf financials tradingCurrency
  let priceFactor := if tradingCurrency = "USD" then exchangeRate else 1
  let financialFactor := if financialCurrency = "USD" then exchangeRate else 1
  let rawEV := (financials.bind FinancialsBundle.defaultKeyStatistics).bind
    KeyStatistics.enterpriseValue
  let rawRevenue := (financials.bind FinancialsBundle.financialData).bind
    FinancialData.totalRevenue
  { ticker := fullTicker
    name := strOr (quote.bind QuoteData.longName)
      (strOr (quote.bind QuoteData.shortName) tickerInput)
    marketIndex := if exchange = "NSE" then "NIFTY 50" else "BSE SENSEX"
    beta := metrics.beta
    volatility := metrics.volatility
    alpha := metrics.alpha
    correlation := metrics.correlation
    rSquared := metrics.rSquared
    period := strOr period "5Y"
    marketCap := numOr0 (quote.bind QuoteData.marketCap) * priceFactor
    revenue := numOr0 rawRevenue * financialFactor
    enterpriseValue := numOr0 rawEV * priceFactor
    evRevenueMultiple :=
      if numTruthy rawEV = true ∧ numTruthy rawRevenue = true then
        some (numOr0 rawEV / (numOr0 rawRevenue * financialFactor / priceFactor))
      else none
    peRatio := (financials.bind FinancialsBundle.summaryDetail).bind
      SummaryDetailData.trailingPE
    pbRatio := (financials.bind FinancialsBundle.defaultKeyStatistics).bind
      KeyStatistics.priceToBook
    dividendYield := (financials.bind FinancialsBundle.summaryDetail).bind
      SummaryDetailData.dividendYield
    ebitda := numOr0 ((financials.bind FinancialsBundle.financialData).bind
      FinancialData.ebitda) * financialFactor
    debtToEquity := (financials.bind FinancialsBundle.financialData).bind
      FinancialData.debtToEquity
    profitMargin := (financials.bind FinancialsBundle.financialData).bind
      FinancialData.profitMargins }

/-- One entry of the final peer array, lines 313-332. -/
structure PeerRowOut where
  ticker : String
  name : String
  beta : Option ℚ
  volatility : Option ℝ
  alpha : Option ℚ
  correlation : Option ℝ
  rSquared : Option ℝ
  marketCap : ℚ
  revenue : ℚ
  enterpriseValue : ℚ
  evRevenueMultiple : Option ℚ
  peRatio : Option ℚ
  pbRatio : Option ℚ
  dividendYield : Option ℚ
  ebitda : ℚ
  debtToEquity : Option ℚ
  profitMargin : Option ℚ
  sector : String

/-- Lines 308-332: the payload row for one peer, given its computed metrics
option and its fetched quote and fundamentals. Statistical fields are null
exactly when the metrics option is absent. -/
def peerRowOf (slug sector : String) (pMet : Option Metrics)
    (pQuote : Option QuoteData) (pFin : Option FinancialsBundle)
    (exchangeRate : ℚ) : PeerRowOut :=
  let pTradingCurr := tradingCurrencyOf pQuote
  let pFinancialCurr := financialCurrencyOf pFin pTradingCurr
  let pPriceFact := if pTradingCurr = "USD" then exchangeRate else 1
  let pFinancialFact := if pFinancialCurr = "USD" then exchangeRate else 1
  let rawEV := (pFin.bind FinancialsBundle.defaultKeyStatistics).bind
    KeyStatistics.enterpriseValue
  let rawRevenue := (pFin.bind FinancialsBundle.financialData).bind
    FinancialData.totalRevenue
  { ticker := slug
    name := strOr (pQuote.bind QuoteData.shortName) slug
    beta := pMet.map Metrics.beta
    volatility := pMet.map Metrics.volatility
    alpha := pMet.map Metrics.alpha
    correlation := pMet.map Metrics.correlation
    rSquared := pMet.map Metrics.rSquared
    marketCap := numOr0 (pQuote.bind QuoteData.marketCap) * pPriceFact
    revenue := numOr0 rawRevenue * pFinancialFact
    enterpriseValue := numOr0 rawEV * pPriceFact
    evRevenueMultiple :=
      if numTruthy rawEV = true ∧ numTruthy rawRevenue = true then
        some (numOr0 rawEV / (numOr0 rawRevenue * pFinancialFact / pPriceFact))
      else none
    peRatio := (pFin.bind FinancialsBundle.summaryDetail).bind
      SummaryDetailData.trailingPE
    pbRatio := (pFin.bind FinancialsBundle.defaultKeyStatistics).bind
      KeyStatistics.priceToBook
    dividendYield := (pFin.bind FinancialsBundle.summaryDetail).bind
      SummaryDetailData.dividendYield
    ebitda := numOr0 ((pFin.bind FinancialsBundle.financialData).bind
      FinancialData.ebitda) * pFinancialFact
    debtToEquity := (pFin.bind FinancialsBundle.financialData).bind
      FinancialData.debtToEquity
    profitMargin := (pFin.bind FinancialsBundle.financialData).bind
      FinancialData.profitMargins
    sector := sector }

/-- A concrete metrics bundle used by closed instantiations. -/
noncomputable def metricsZero : Metrics :=
  { beta := 0, alpha := 0, correlation := 0, rSquared := 0, volatility := 0 }

/-- A concrete fundamentals bundle with enterprise value present but zero
and revenue present and nonzero. -/
def finEVZero : FinancialsBundle :=
  FinancialsBundle.mk (some (FinancialData.mk none (some 5) none none none))
    (some (KeyStatistics.mk (some 0) none)) none

/-- A concrete fundamentals bundle with both enterprise value and revenue
present and nonzero. -/
def finEVRev : FinancialsBundle :=
  FinancialsBundle.mk (some (FinancialData.mk none (some 5) none none none))
    (some (KeyStatistics.mk (some 3) none)) none

/-! ## Peer discovery: getPeers (storage.ts lines 172-223) -/

/-- One row of the offline industry directory. -/
structure IndustryEntry where
  symbol : String
  name : String
  industry : String
deriving DecidableEq

/-- The assetProfile module fields read by getPeers. -/
structure AssetProfileData where
  sector : Option String
  industry : Option String
deriving DecidableEq

/-- The quoteSummary fields read for a candidate: the asset profile, the
summaryDetail market cap and the financialData currency. -/
structure SummaryData where
  assetProfile : Option AssetProfileData
  summaryDetailMarketCap : Option ℚ
  financialCurrency : Option String
deriving DecidableEq

/-- One verified peer, lines 211-215: symbol, sector label, normalized
market cap. -/
structure PeerInfo where
  slug : String
  sector : String
  marketCap : ℚ
deriving DecidableEq

/-- The external collaborators getPeers talks to, as response oracles. -/
structure PeersOracle where
  targetSummary : Option SummaryData
  recommended : List String
  summaries : String → Option SummaryData
  quote : String → Option QuoteData

/-- JavaScript Set construction from an array keeps the first occurrence of
each element, in insertion order. -/
def setDedup (l : List String) : List String :=
  l.foldl (fun acc s => if s ∈ acc then acc else acc ++ [s]) []

/-- Candidate gathering, lines 182-191: the recommender symbols, then, when
the directory industry for the target is truthy, the union with every
directory peer of that industry mapped to the NSE suffix, de-duplicated in
insertion order; with no truthy directory industry the raw recommender list
is used unchanged. -/
def candidateSymbols (oracle : PeersOracle) (industryList : List IndustryEntry)
    (ticker : String) : List String :=
  let tickerBase := (ticker.splitOn ".").headD ""
  let excelIndustry := (industryList.find? (fun i => i.symbol == tickerBase)).map
    IndustryEntry.industry
  match excelIndustry with
  | some e =>
    if e = "" then oracle.recommended
    else
      setDedup (oracle.recommended ++
        ((industryList.filter
          (fun item => item.industry == e && item.symbol != tickerBase)).map
          (fun item => item.symbol ++ ".NS")))
  | none => oracle.recommended

/-- Lines 197-216 for one candidate: null when its summary or asset profile
is missing or it equals the target; the industry check accepts when either
the profile industry equals the target industry or the directory classifies
both under the same truthy industry; survivors are enriched with the quote
currency and the normalized summary market cap. -/
def verifyCandidate (oracle : PeersOracle) (industryList : List IndustryEntry)
    (ticker : String) (exchangeRate : ℚ) (targetIndustry : String)
    (excelIndustry : Option String) (symbol : String) : Option PeerInfo :=
  match oracle.summaries symbol with
  | none => none
  | some s =>
    match s.assetProfile with
    | none => none
    | some ap =>
      if symbol = ticker then none
      else
        let excelOk : Bool :=
          match excelIndustry with
          | some e => e != "" &&
              ((industryList.find? (fun item => item.symbol ==
                ((symbol.splitOn ".").headD ""))).map IndustryEntry.industry == some e)
          | none => false
        let isSameIndustry : Bool := (ap.industry == some targetIndustry) || excelOk
        if isSameIndustry then
          let q := oracle.quote symbol
          let peerCurrency := strOr (q.bind QuoteData.currency)
            (strOr s.financialCurrency "INR")
          let factor := if peerCurrency = "USD" then exchangeRate else 1
          some (PeerInfo.mk symbol
            (strOr ap.sector "Unknown" ++ " > " ++ strOr ap.industry "Unknown")
            (numOr0 s.summaryDetailMarketCap * factor))
        else none

/-- The verified peer list of lines 193-217, in candidate order, capped at
the first twenty candidates; empty when the target summary or its asset
profile is missing. -/
def verifiedPeersList (oracle : PeersOracle) (industryList : List IndustryEntry)
    (ticker : String) (exchangeRate : ℚ) : List PeerInfo :=
  match oracle.targetSummary with
  | none => []
  | some summary =>
    match summary.assetProfile with
    | none => []
    | some ap =>
      let targetIndustry := strOr ap.industry ""
      let tickerBase := (ticker.splitOn ".").headD ""
      let excelIndustry := (industryList.find? (fun i => i.symbol == tickerBase)).map
        IndustryEntry.industry
      ((candidateSymbols oracle industryList ticker).take 20).filterMap
        (verifyCandidate oracle industryList ticker exchangeRate targetIndustry excelIndustry)

/-- The comparator of lines 218 and 335: descending by market cap. -/
def byMarketCapDesc (a b : PeerInfo) : Bool := decide (b.marketCap ≤ a.marketCap)

/-- getPeers, lines 172-223: the verified list stable-sorted descending by
normalized market cap, then truncated to ten. -/
def getPeers (oracle : PeersOracle) (industryList : List IndustryEntry)
    (ticker : String) (exchangeRate : ℚ) : List PeerInfo :=
  ((verifiedPeersList oracle industryList ticker exchangeRate).mergeSort
    byMarketCapDesc).take 10

/-- An oracle whose recommender returns one symbol once: the target summary
classifies the target as Tech, and the one candidate is also Tech with a
market cap of five. -/
def oracleOne : PeersOracle :=
  PeersOracle.mk
    (some (SummaryData.mk (some (AssetProfileData.mk none (some "Tech"))) none none))
    ["P.NS"]
    (fun s => if s = "P.NS"
      then some (SummaryData.mk (some (AssetProfileData.mk none (some "Tech"))) (some 5) none)
      else none)
    (fun _ => none)

/-- The same oracle with the symbol recommended twice. -/
def oracleDup : PeersOracle :=
  PeersOracle.mk oracleOne.targetSummary ["P.NS", "P.NS"] oracleOne.summaries oracleOne.quote

/-- The verified peer row both oracles produce for the one candidate. -/
def qDup : PeerInfo := PeerInfo.mk "P.NS" ("Unknown" ++ " > " ++ "Tech") (5 * 1)

/-! ## Orchestrator peer stage (storage.ts lines 292-335) -/

/-- The three per-peer fetches of lines 293-297: history, quote and
fundamentals, each individually guarded against failure. -/
structure PeerFetchResult where
  history : Option (List Row)
  quote : Option QuoteData
  financials : Option FinancialsBundle

/-- Lines 292-333 for one peer: null when the history fetch failed or
returned fewer than two rows (line 299); otherwise the peer row built from
the metrics of the alignment against the shared benchmark date map and
from the fetched quote and fundamentals, an absent metrics result being
tolerated. -/
noncomputable def processPeer (marketData : List Row) (exchangeRate : ℚ)
    (fetch : String → PeerFetchResult) (peer : PeerInfo) : Option PeerRowOut :=
  match (fetch peer.slug).history with
  | none => none
  | some pData =>
    if pData.length < 2 then none
    else
      some (peerRowOf peer.slug peer.sector
        (calculateFinancialMetrics ((alignSeries pData marketData).map Prod.fst)
          ((alignSeries pData marketData).map Prod.snd))
        (fetch peer.slug).quote (fetch peer.slug).financials exchangeRate)

/-- The comparator of line 335: descending by market cap. -/
def byRowMarketCapDesc (a b : PeerRowOut) : Bool := decide (b.marketCap ≤ a.marketCap)

/-- Line 335: the final peer array, the non-null per-peer results
stable-sorted descending by market cap, with no truncation. -/
noncomputable def finalPeers (marketData : List Row) (exchangeRate : ℚ)
    (fetch : String → PeerFetchResult) (peerList : List PeerInfo) : List PeerRowOut :=
  ((peerList.map (processPeer marketData exchangeRate fetch)).filterMap id).mergeSort
    byRowMarketCapDesc

/-- The shared benchmark series of the closed orchestrator instantiation. -/
def cxMarket : List Row := [Row.mk "a" (some 1), Row.mk "b" (some 2)]

/-- A fetch oracle whose history always returns the two benchmark rows. -/
def fetchOK : String → PeerFetchResult :=
  fun _ => PeerFetchResult.mk (some [Row.mk "a" (some 1), Row.mk "b" (some 2)]) none none

/-- The same oracle with a failed history fetch for the symbol X. -/
def fetchBad : String → PeerFetchResult :=
  fun s => if s = "X" then PeerFetchResult.mk none none none else fetchOK s

/-- A processed peer of the closed orchestrator instantiation. -/
def peerP : PeerInfo := PeerInfo.mk "P" "S" 5

/-- The peer whose history fetch fails in the closed instantiation. -/
def peerX : PeerInfo := PeerInfo.mk "X" "S" 3

/-- An oracle with two recommended candidates, both in the target industry,
neither carrying a market cap. -/
def oracleTwo : PeersOracle :=
  PeersOracle.mk
    (some (SummaryData.mk (some (AssetProfileData.mk none (some "Tech"))) none none))
    ["P.NS", "Q.NS"]
    (fun s => if s = "P.NS" ∨ s = "Q.NS"
      then some (SummaryData.mk (some (AssetProfileData.mk none (some "Tech"))) none none)
      else none)
    (fun _ => none)

/-- The two verified rows oracleTwo produces: both with market cap zero. -/
def qP : PeerInfo := PeerInfo.mk "P.NS" ("Unknown" ++ " > " ++ "Tech") (0 * 1)

/-- The second verified row oracleTwo produces. -/
def qQ : PeerInfo := PeerInfo.mk "Q.NS" ("Unknown" ++ " > " ++ "Tech") (0 * 1)

/-! ## Theorems -/

theorem length_simpleReturns (p : List ℚ) :
    (simpleReturns p).length = p.length - 1 := by
  simp [simpleReturns]

theorem varSum_nonneg (xs : List ℚ) : 0 ≤ varSum xs := by
  apply List.sum_nonneg
  intro x hx
  simp only [List.mem_map] at hx
  obtain ⟨y, -, rfl⟩ := hx
  positivity

theorem zipWith_self_eq_map {α β : Type} (f : α → α → β) :
    ∀ l : List α, List.zipWith f l l = l.map (fun x => f x x)
  | [] => rfl
  | a :: t => by simp [List.zipWith, zipWith_self_eq_map f t]

theorem covSum_self (xs : List ℚ) : covSum xs xs = varSum xs := by
  unfold covSum varSum
  rw [zipWith_self_eq_map]
  congr 1
  apply List.map_congr_left
  intro x _
  ring

theorem calculateFinancialMetrics_eq_some_iff (sp mp : List ℚ) (m : Metrics) :
    calculateFinancialMetrics sp mp = some m ↔
      sp.length = mp.length ∧ 2 ≤ sp.length ∧ 2 ≤ (simpleReturns sp).length ∧
      varSum (simpleReturns mp) ≠ 0 ∧ varSum (simpleReturns sp) ≠ 0 ∧
      m = metricsOf sp mp := by
  unfold calculateFinancialMetrics
  split_ifs with h1 h2 h3
  · refine iff_of_false (by simp) ?_
    rintro ⟨hl, h2l, -, -, -, -⟩
    rcases h1 with h | h
    · exact h hl
    · omega
  · refine iff_of_false (by simp) ?_
    rintro ⟨-, -, hr, -, -, -⟩
    omega
  · refine iff_of_false (by simp) ?_
    rintro ⟨-, -, -, hvm, hvs, -⟩
    rcases h3 with h | h
    · exact hvm h
    · exact hvs h
  · push_neg at h1 h3
    constructor
    · intro h
      refine ⟨h1.1, by omega, by omega, h3.1, h3.2, ?_⟩
      exact (Option.some_injective _ h).symm
    · rintro ⟨-, -, -, -, -, rfl⟩
      rfl

theorem calculateFinancialMetrics_eq_none_iff (sp mp : List ℚ)
    (hlen : sp.length = mp.length) :
    calculateFinancialMetrics sp mp = none ↔
      (simpleReturns sp).length < 2 ∨
      varSum (simpleReturns sp) = 0 ∨ varSum (simpleReturns mp) = 0 := by
  unfold calculateFinancialMetrics
  have hr := length_simpleReturns sp
  split_ifs with h1 h2 h3
  · simp only [true_iff]
    left
    rcases h1 with h | h
    · exact absurd hlen h
    · omega
  · simp only [true_iff]
    exact Or.inl h2
  · simp only [true_iff]
    rcases h3 with h | h
    · exact Or.inr (Or.inr h)
    · exact Or.inr (Or.inl h)
  · push_neg at h1 h3
    simp only [reduceCtorEq, false_iff]
    push_neg
    exact ⟨by omega, h3.2, h3.1⟩

/-- C1: whenever calculateFinancialMetrics produces a bundle on a pair of
equal-length price series, the bundle satisfies exactly the specified
formulas: beta is the covariance sum over the market variance sum, alpha is
the stock mean minus beta times the market mean, correlation is the
covariance sum over the square root of the product of the two variance
sums, rSquared is the square of the correlation, and volatility is the
Bessel-corrected standard deviation of the stock returns scaled by the
square root of 252, where all sums are population sums of centered
products over the derived simple returns. -/
theorem C1_metric_formulas (sp mp : List ℚ) (m : Metrics)
    (h : calculateFinancialMetrics sp mp = some m) :
    m.beta = covSum (simpleReturns sp) (simpleReturns mp) / varSum (simpleReturns mp) ∧
    m.alpha = mean (simpleReturns sp) - m.beta * mean (simpleReturns mp) ∧
    m.correlation = (covSum (simpleReturns sp) (simpleReturns mp) : ℝ) /
      Real.sqrt ((varSum (simpleReturns sp) : ℝ) * (varSum (simpleReturns mp) : ℝ)) ∧
    m.rSquared = m.correlation ^ 2 ∧
    m.volatility = Real.sqrt ((varSum (simpleReturns sp) : ℝ) /
      (((simpleReturns sp).length : ℝ) - 1)) * Real.sqrt 252 := by
  obtain ⟨-, -, -, -, -, rfl⟩ := (calculateFinancialMetrics_eq_some_iff sp mp m).1 h
  have hs : (0 : ℝ) ≤ (varSum (simpleReturns sp) : ℝ) := by
    exact_mod_cast varSum_nonneg (simpleReturns sp)
  refine ⟨rfl, rfl, ?_, rfl, rfl⟩
  simp only [metricsOf]
  rw [Real.sqrt_mul hs]

theorem C1_metric_formulas_witness :
    calculateFinancialMetrics [1, 2, 1] [1, 3, 1] = some (metricsOf [1, 2, 1] [1, 3, 1]) ∧
    ((metricsOf [1, 2, 1] [1, 3, 1]).beta =
      covSum (simpleReturns [1, 2, 1]) (simpleReturns [1, 3, 1]) /
        varSum (simpleReturns [1, 3, 1]) ∧
    (metricsOf [1, 2, 1] [1, 3, 1]).alpha =
      mean (simpleReturns [1, 2, 1]) -
        (metricsOf [1, 2, 1] [1, 3, 1]).beta * mean (simpleReturns [1, 3, 1]) ∧
    (metricsOf [1, 2, 1] [1, 3, 1]).correlation =
      (covSum (simpleReturns [1, 2, 1]) (simpleReturns [1, 3, 1]) : ℝ) /
        Real.sqrt ((varSum (simpleReturns [1, 2, 1]) : ℝ) *
          (varSum (simpleReturns [1, 3, 1]) : ℝ)) ∧
    (metricsOf [1, 2, 1] [1, 3, 1]).rSquared = (metricsOf [1, 2, 1] [1, 3, 1]).correlation ^ 2 ∧
    (metricsOf [1, 2, 1] [1, 3, 1]).volatility =
      Real.sqrt ((varSum (simpleReturns [1, 2, 1]) : ℝ) /
        (((simpleReturns [1, 2, 1]).length : ℝ) - 1)) * Real.sqrt 252) := by
  have h : calculateFinancialMetrics [1, 2, 1] [1, 3, 1] =
      some (metricsOf [1, 2, 1] [1, 3, 1]) := by
    apply (calculateFinancialMetrics_eq_some_iff _ _ _).2
    refine ⟨by decide, by decide, by decide, ?_, ?_, rfl⟩
    · norm_num [varSum, simpleReturns, mean, List.zipWith]
    · norm_num [varSum, simpleReturns, mean, List.zipWith]
  exact ⟨h, C1_metric_formulas _ _ _ h⟩

/-- C2: on equal-length inputs, calculateFinancialMetrics returns null
exactly when fewer than 2 returns were derived (in particular for exactly
two price points) or either return vector has a zero variance sum; in
every other case it returns the bundle, which by the shape of the Metrics
record is always fully populated. -/
theorem C2_absent_iff (sp mp : List ℚ) (hlen : sp.length = mp.length) :
    calculateFinancialMetrics sp mp = none ↔
      (simpleReturns sp).length < 2 ∨
      varSum (simpleReturns sp) = 0 ∨ varSum (simpleReturns mp) = 0 :=
  calculateFinancialMetrics_eq_none_iff sp mp hlen

theorem C2_absent_iff_witness :
    calculateFinancialMetrics [100, 105] [1000, 1010] = none :=
  (C2_absent_iff [100, 105] [1000, 1010] rfl).2 (Or.inl (by decide))

/-- C4 counterexample: the code never excludes a pair for a non-positive
leading price. On the all-negative series below every leading price is
non-positive, yet the result is populated, not absent; and on a strictly
positive constant series of length 3 the result is absent (zero variance),
not populated. Both facts contradict the claim as stated. -/
theorem C4_counterexample :
    ((-1 : ℚ) ≤ 0) ∧
    (calculateFinancialMetrics [-1, -2, -1, -2] [-1, -2, -1, -2]).isSome = true ∧
    calculateFinancialMetrics [1, 1, 1] [1, 1, 1] = none := by
  refine ⟨by norm_num, ?_, ?_⟩
  · have h : calculateFinancialMetrics [-1, -2, -1, -2] [-1, -2, -1, -2] =
        some (metricsOf [-1, -2, -1, -2] [-1, -2, -1, -2]) := by
      apply (calculateFinancialMetrics_eq_some_iff _ _ _).2
      refine ⟨by decide, by decide, by decide, ?_, ?_, rfl⟩
      · norm_num [varSum, simpleReturns, mean, List.zipWith]
      · norm_num [varSum, simpleReturns, mean, List.zipWith]
    rw [h]
    rfl
  · refine (calculateFinancialMetrics_eq_none_iff _ _ rfl).2 (Or.inr (Or.inl ?_))
    norm_num [varSum, simpleReturns, mean, List.zipWith]

/-- C4 amended: the return computation excludes nothing, so the derived
return vector always has exactly length minus one entries even when a
leading price is non-positive; on equal-length inputs of length at least 3
the result is populated exactly when both variance sums are nonzero,
regardless of the sign of any price; and for length below 3 the result is
absent. -/
theorem C4_amended (sp mp : List ℚ) (hlen : sp.length = mp.length) :
    (simpleReturns sp).length = sp.length - 1 ∧
    (3 ≤ sp.length →
      ((calculateFinancialMetrics sp mp).isSome ↔
        varSum (simpleReturns sp) ≠ 0 ∧ varSum (simpleReturns mp) ≠ 0)) ∧
    (sp.length < 3 → calculateFinancialMetrics sp mp = none) := by
  have hr := length_simpleReturns sp
  refine ⟨hr, ?_, ?_⟩
  · intro h3
    constructor
    · intro hs
      obtain ⟨m, hm⟩ := Option.isSome_iff_exists.1 hs
      obtain ⟨-, -, -, hvm, hvs, -⟩ := (calculateFinancialMetrics_eq_some_iff sp mp m).1 hm
      exact ⟨hvs, hvm⟩
    · rintro ⟨hvs, hvm⟩
      rw [Option.isSome_iff_ne_none]
      intro hn
      rcases (calculateFinancialMetrics_eq_none_iff sp mp hlen).1 hn with h | h | h
      · omega
      · exact hvs h
      · exact hvm h
  · intro h3
    rw [calculateFinancialMetrics_eq_none_iff sp mp hlen]
    left
    omega

theorem C4_amended_witness :
    (simpleReturns [2, 1, 3]).length = ([2, 1, 3] : List ℚ).length - 1 ∧
    (3 ≤ ([2, 1, 3] : List ℚ).length →
      ((calculateFinancialMetrics [2, 1, 3] [1, 2, 5]).isSome ↔
        varSum (simpleReturns [2, 1, 3]) ≠ 0 ∧ varSum (simpleReturns [1, 2, 5]) ≠ 0)) ∧
    (([2, 1, 3] : List ℚ).length < 3 → calculateFinancialMetrics [2, 1, 3] [1, 2, 5] = none) :=
  C4_amended [2, 1, 3] [1, 2, 5] rfl

/-- C9: whenever the two derived return vectors coincide, any bundle
produced by calculateFinancialMetrics has beta, correlation and rSquared
all equal to one. -/
theorem C9_identical_returns (sp mp : List ℚ) (m : Metrics)
    (hr : simpleReturns sp = simpleReturns mp)
    (h : calculateFinancialMetrics sp mp = some m) :
    m.beta = 1 ∧ m.correlation = 1 ∧ m.rSquared = 1 := by
  obtain ⟨-, -, -, hvm, -, rfl⟩ := (calculateFinancialMetrics_eq_some_iff sp mp m).1 h
  rw [← hr] at hvm
  have hb : (metricsOf sp mp).beta = 1 := by
    simp only [metricsOf]
    rw [← hr, covSum_self, div_self hvm]
  have hc : (metricsOf sp mp).correlation = 1 := by
    simp only [metricsOf]
    rw [← hr, covSum_self]
    have hnn : (0 : ℝ) ≤ (varSum (simpleReturns sp) : ℝ) := by
      exact_mod_cast varSum_nonneg (simpleReturns sp)
    rw [Real.mul_self_sqrt hnn, div_self (by exact_mod_cast hvm)]
  refine ⟨hb, hc, ?_⟩
  have : (metricsOf sp mp).rSquared = (metricsOf sp mp).correlation ^ 2 := rfl
  rw [this, hc, one_pow]

theorem C9_identical_returns_witness :
    calculateFinancialMetrics [100, 102, 101, 105, 107] [1000, 1020, 1010, 1050, 1070] =
      some (metricsOf [100, 102, 101, 105, 107] [1000, 1020, 1010, 1050, 1070]) ∧
    (metricsOf [100, 102, 101, 105, 107] [1000, 1020, 1010, 1050, 1070]).beta = 1 ∧
    (metricsOf [100, 102, 101, 105, 107] [1000, 1020, 1010, 1050, 1070]).correlation = 1 ∧
    (metricsOf [100, 102, 101, 105, 107] [1000, 1020, 1010, 1050, 1070]).rSquared = 1 := by
  have h : calculateFinancialMetrics [100, 102, 101, 105, 107] [1000, 1020, 1010, 1050, 1070] =
      some (metricsOf [100, 102, 101, 105, 107] [1000, 1020, 1010, 1050, 1070]) := by
    apply (calculateFinancialMetrics_eq_some_iff _ _ _).2
    refine ⟨by decide, by decide, by decide, ?_, ?_, rfl⟩
    · norm_num [varSum, simpleReturns, mean, List.zipWith]
    · norm_num [varSum, simpleReturns, mean, List.zipWith]
  have hr : simpleReturns ([100, 102, 101, 105, 107] : List ℚ) =
      simpleReturns ([1000, 1020, 1010, 1050, 1070] : List ℚ) := by
    norm_num [simpleReturns, List.zipWith]
  obtain ⟨h1, h2, h3⟩ := C9_identical_returns _ _ _ hr h
  exact ⟨h, h1, h2, h3⟩

theorem dateMapGet_foldl_truthy (s : String) (marketData : List Row) :
    ∀ acc : Option ℚ,
      (numTruthy (marketData.foldl
        (fun acc r => if r.date = s ∧ numTruthy r.close then r.close else acc) acc) = true ↔
      (∃ r ∈ marketData, r.date = s ∧ numTruthy r.close = true) ∨ numTruthy acc = true) := by
  induction marketData with
  | nil => intro acc; simp
  | cons r t ih =>
    intro acc
    simp only [List.foldl_cons, List.mem_cons]
    rw [ih]
    by_cases h : r.date = s ∧ numTruthy r.close
    · rw [if_pos h]
      constructor
      · intro _
        exact Or.inl ⟨r, Or.inl rfl, h.1, h.2⟩
      · intro _
        exact Or.inr h.2
    · rw [if_neg h]
      constructor
      · rintro (⟨x, hx, hxd, hxc⟩ | hacc)
        · exact Or.inl ⟨x, Or.inr hx, hxd, hxc⟩
        · exact Or.inr hacc
      · rintro (⟨x, hx, hxd, hxc⟩ | hacc)
        · rcases hx with rfl | hx
          · exact absurd ⟨hxd, hxc⟩ h
          · exact Or.inl ⟨x, hx, hxd, hxc⟩
        · exact Or.inr hacc

theorem numTruthy_dateMapGet (marketData : List Row) (s : String) :
    numTruthy (dateMapGet marketData s) = true ↔
      ∃ r ∈ marketData, r.date = s ∧ numTruthy r.close = true := by
  rw [dateMapGet, dateMapGet_foldl_truthy]
  simp [numTruthy]

theorem alignDates_emit (marketData : List Row) (r : Row) :
    (match dateMapGet marketData r.date, r.close with
     | some mPrice, some c => if mPrice ≠ 0 ∧ c ≠ 0 then some r.date else none
     | some _, none => none
     | none, _ => none) =
    if numTruthy r.close = true ∧ numTruthy (dateMapGet marketData r.date) = true
    then some r.date else none := by
  rcases hm : dateMapGet marketData r.date with _ | mP <;>
    rcases hc : r.close with _ | c <;>
      simp [numTruthy, and_comm]

theorem mem_alignDates (stockData marketData : List Row) (d : String) :
    d ∈ alignDates stockData marketData ↔
      (∃ r ∈ stockData, r.date = d ∧ numTruthy r.close = true) ∧
      numTruthy (dateMapGet marketData d) = true := by
  unfold alignDates
  rw [List.mem_filterMap]
  constructor
  · rintro ⟨r, hr, hg⟩
    rw [alignDates_emit] at hg
    by_cases hcond : numTruthy r.close = true ∧ numTruthy (dateMapGet marketData r.date) = true
    · rw [if_pos hcond] at hg
      obtain rfl : r.date = d := Option.some_injective _ hg
      exact ⟨⟨r, hr, rfl, hcond.1⟩, hcond.2⟩
    · rw [if_neg hcond] at hg
      exact absurd hg (by simp)
  · rintro ⟨⟨r, hr, hrd, hrc⟩, hm⟩
    refine ⟨r, hr, ?_⟩
    rw [alignDates_emit, if_pos ⟨hrc, by rw [hrd]; exact hm⟩, hrd]

theorem alignDates_sublist (stockData marketData : List Row) :
    (alignDates stockData marketData).Sublist (stockData.map Row.date) := by
  induction stockData with
  | nil => simp [alignDates]
  | cons r t ih =>
    unfold alignDates at *
    simp only [List.filterMap_cons, List.map_cons]
    rw [alignDates_emit]
    by_cases hcond : numTruthy r.close = true ∧
        numTruthy (dateMapGet marketData r.date) = true
    · rw [if_pos hcond]
      exact List.cons_sublist_cons.2 ih
    · rw [if_neg hcond]
      exact ih.cons _

theorem length_alignSeries_eq (stockData marketData : List Row) :
    (alignSeries stockData marketData).length = (alignDates stockData marketData).length := by
  induction stockData with
  | nil => rfl
  | cons r t ih =>
    unfold alignSeries alignDates at *
    simp only [List.filterMap_cons]
    rcases hm : dateMapGet marketData r.date with _ | mP <;>
      rcases hc : r.close with _ | c <;> simp only [ih]
    by_cases hcond : mP ≠ 0 ∧ c ≠ 0
    · rw [if_pos hcond, if_pos hcond]
      simp [ih]
    · rw [if_neg hcond, if_neg hcond]
      exact ih

/-- C3 counterexample: the reference-side validity check is truthiness, not
positivity. With a market close of minus five on the shared date, the pair
is still emitted, although the reference series has no positive close on
that date, contradicting the claimed only-if direction. -/
theorem C3_counterexample :
    alignSeries [⟨"2024-01-02", some 10⟩] [⟨"2024-01-02", some (-5)⟩] = [(10, -5)] ∧
    ¬(0 < (-5 : ℚ)) := by
  constructor
  · norm_num [alignSeries, dateMapGet, numTruthy, List.filterMap_cons]
  · norm_num

/-- C3 amended: assuming the primary series carries at most one row per
calendar date, the alignment is an order-preserving inner join keyed on
non-null, nonzero (truthy) closes: a pair for date d is emitted exactly
once when the primary series has a truthy close on d and the reference
series has a truthy close on d, and never otherwise; the emitted dates form
a subsequence of the primary series dates, and the pair list has one entry
per emitted date. The embedding is a pure function, so the inputs are
never mutated. -/
theorem C3_inner_join (stockData marketData : List Row)
    (hnodup : (stockData.map Row.date).Nodup) (d : String) :
    ((alignDates stockData marketData).count d =
      if (∃ r ∈ stockData, r.date = d ∧ numTruthy r.close = true) ∧
         (∃ r ∈ marketData, r.date = d ∧ numTruthy r.close = true)
      then 1 else 0) ∧
    (alignDates stockData marketData).Sublist (stockData.map Row.date) ∧
    (alignSeries stockData marketData).length = (alignDates stockData marketData).length := by
  refine ⟨?_, alignDates_sublist _ _, length_alignSeries_eq _ _⟩
  have hnd : (alignDates stockData marketData).Nodup :=
    (alignDates_sublist stockData marketData).nodup hnodup
  by_cases hc : (∃ r ∈ stockData, r.date = d ∧ numTruthy r.close = true) ∧
      (∃ r ∈ marketData, r.date = d ∧ numTruthy r.close = true)
  · rw [if_pos hc]
    refine List.count_eq_one_of_mem hnd ?_
    rw [mem_alignDates]
    exact ⟨hc.1, (numTruthy_dateMapGet _ _).2 hc.2⟩
  · rw [if_neg hc]
    refine List.count_eq_zero_of_not_mem ?_
    rw [mem_alignDates]
    rintro ⟨h1, h2⟩
    exact hc ⟨h1, (numTruthy_dateMapGet _ _).1 h2⟩

theorem C3_inner_join_witness :
    ((alignDates [⟨"a", some 1⟩, ⟨"b", some 2⟩] [⟨"a", some 3⟩]).count "a" =
      if (∃ r ∈ [Row.mk "a" (some 1), Row.mk "b" (some 2)],
            r.date = "a" ∧ numTruthy r.close = true) ∧
         (∃ r ∈ [Row.mk "a" (some 3)], r.date = "a" ∧ numTruthy r.close = true)
      then 1 else 0) ∧
    (alignDates [⟨"a", some 1⟩, ⟨"b", some 2⟩] [⟨"a", some 3⟩]).Sublist
      (List.map Row.date [⟨"a", some 1⟩, ⟨"b", some 2⟩]) ∧
    (alignSeries [⟨"a", some 1⟩, ⟨"b", some 2⟩] [⟨"a", some 3⟩]).length =
      (alignDates [⟨"a", some 1⟩, ⟨"b", some 2⟩] [⟨"a", some 3⟩]).length :=
  C3_inner_join [⟨"a", some 1⟩, ⟨"b", some 2⟩] [⟨"a", some 3⟩] (by simp) "a"

/-- C6: currency normalization multiplies a monetary field by the exchange
rate exactly when the currency its classification is keyed to is USD, the
trading currency governing the price-based marketCap and enterpriseValue
and the reporting currency governing the report-based revenue and ebitda,
and leaves the field at its raw value otherwise; hence every USD-classified
field is linear in the rate, equals the raw value at rate one, and every
non-USD field does not depend on the rate at all. Stated for the target
payload and for the peer payload. -/
theorem C6_currency_normalization (exchange fullTicker tickerInput : String)
    (period : Option String) (metrics : Metrics) (quote : Option QuoteData)
    (financials : Option FinancialsBundle) (slug sector : String)
    (pMet : Option Metrics) (fx : ℚ) :
    (tradingCurrencyOf quote = "USD" →
      (buildTargetData exchange fullTicker tickerInput period metrics quote financials
          fx).marketCap = fx * numOr0 (quote.bind QuoteData.marketCap) ∧
      (buildTargetData exchange fullTicker tickerInput period metrics quote financials
          fx).enterpriseValue = fx * numOr0 ((financials.bind
            FinancialsBundle.defaultKeyStatistics).bind KeyStatistics.enterpriseValue) ∧
      (peerRowOf slug sector pMet quote financials fx).marketCap =
        fx * numOr0 (quote.bind QuoteData.marketCap) ∧
      (peerRowOf slug sector pMet quote financials fx).enterpriseValue =
        fx * numOr0 ((financials.bind FinancialsBundle.defaultKeyStatistics).bind
          KeyStatistics.enterpriseValue)) ∧
    (tradingCurrencyOf quote ≠ "USD" →
      (buildTargetData exchange fullTicker tickerInput period metrics quote financials
          fx).marketCap = numOr0 (quote.bind QuoteData.marketCap) ∧
      (buildTargetData exchange fullTicker tickerInput period metrics quote financials
          fx).enterpriseValue = numOr0 ((financials.bind
            FinancialsBundle.defaultKeyStatistics).bind KeyStatistics.enterpriseValue) ∧
      (peerRowOf slug sector pMet quote financials fx).marketCap =
        numOr0 (quote.bind QuoteData.marketCap) ∧
      (peerRowOf slug sector pMet quote financials fx).enterpriseValue =
        numOr0 ((financials.bind FinancialsBundle.defaultKeyStatistics).bind
          KeyStatistics.enterpriseValue)) ∧
    (financialCurrencyOf financials (tradingCurrencyOf quote) = "USD" →
      (buildTargetData exchange fullTicker tickerInput period metrics quote financials
          fx).revenue = fx * numOr0 ((financials.bind FinancialsBundle.financialData).bind
            FinancialData.totalRevenue) ∧
      (buildTargetData exchange fullTicker tickerInput period metrics quote financials
          fx).ebitda = fx * numOr0 ((financials.bind FinancialsBundle.financialData).bind
            FinancialData.ebitda) ∧
      (peerRowOf slug sector pMet quote financials fx).revenue =
        fx * numOr0 ((financials.bind FinancialsBundle.financialData).bind
          FinancialData.totalRevenue) ∧
      (peerRowOf slug sector pMet quote financials fx).ebitda =
        fx * numOr0 ((financials.bind FinancialsBundle.financialData).bind
          FinancialData.ebitda)) ∧
    (financialCurrencyOf financials (tradingCurrencyOf quote) ≠ "USD" →
      (buildTargetData exchange fullTicker tickerInput period metrics quote financials
          fx).revenue = numOr0 ((financials.bind FinancialsBundle.financialData).bind
            FinancialData.totalRevenue) ∧
      (buildTargetData exchange fullTicker tickerInput period metrics quote financials
          fx).ebitda = numOr0 ((financials.bind FinancialsBundle.financialData).bind
            FinancialData.ebitda) ∧
      (peerRowOf slug sector pMet quote financials fx).revenue =
        numOr0 ((financials.bind FinancialsBundle.financialData).bind
          FinancialData.totalRevenue) ∧
      (peerRowOf slug sector pMet quote financials fx).ebitda =
        numOr0 ((financials.bind FinancialsBundle.financialData).bind
          FinancialData.ebitda)) := by
  refine ⟨?_, ?_, ?_, ?_⟩ <;> intro h <;>
    simp only [buildTargetData, peerRowOf, h, ite_true, ite_false, reduceIte] <;>
    refine ⟨by ring, by ring, by ring, by ring⟩

theorem C6_currency_normalization_witness :
    (buildTargetData "NSE" "T.NS" "T" none metricsZero
        (some (QuoteData.mk (some "USD") (some 7) none none)) none 5).marketCap =
      5 * numOr0 ((some (QuoteData.mk (some "USD") (some 7) none none)).bind
        QuoteData.marketCap) ∧
    (buildTargetData "NSE" "T.NS" "T" none metricsZero
        (some (QuoteData.mk (some "INR") (some 7) none none)) none 5).marketCap =
      numOr0 ((some (QuoteData.mk (some "INR") (some 7) none none)).bind
        QuoteData.marketCap) ∧
    (peerRowOf "P.NS" "S" none
        (some (QuoteData.mk (some "USD") (some 7) none none)) none 5).marketCap =
      5 * numOr0 ((some (QuoteData.mk (some "USD") (some 7) none none)).bind
        QuoteData.marketCap) ∧
    (buildTargetData "NSE" "T.NS" "T" none metricsZero
        (some (QuoteData.mk (some "INR") (some 7) none none)) none 5).revenue =
      numOr0 (((none : Option FinancialsBundle).bind FinancialsBundle.financialData).bind
        FinancialData.totalRevenue) := by
  have hUSD : tradingCurrencyOf
      (some (QuoteData.mk (some "USD") (some 7) none none)) = "USD" := by
    simp [tradingCurrencyOf, strOr]
  have hINR : tradingCurrencyOf
      (some (QuoteData.mk (some "INR") (some 7) none none)) ≠ "USD" := by
    simp [tradingCurrencyOf, strOr]
  have hFin : financialCurrencyOf (none : Option FinancialsBundle)
      (tradingCurrencyOf (some (QuoteData.mk (some "INR") (some 7) none none))) ≠ "USD" := by
    simp [financialCurrencyOf, tradingCurrencyOf, strOr]
  refine ⟨?_, ?_, ?_, ?_⟩
  · exact ((C6_currency_normalization "NSE" "T.NS" "T" none metricsZero _ none "P.NS" "S"
      none 5).1 hUSD).1
  · exact ((C6_currency_normalization "NSE" "T.NS" "T" none metricsZero _ none "P.NS" "S"
      none 5).2.1 hINR).1
  · exact ((C6_currency_normalization "NSE" "T.NS" "T" none metricsZero _ none "P.NS" "S"
      none 5).1 hUSD).2.2.1
  · exact ((C6_currency_normalization "NSE" "T.NS" "T" none metricsZero _ none "P.NS" "S"
      none 5).2.2.2 hFin).1

/-- C8 counterexample: the emission guard is truthiness of BOTH fields, so
an enterprise value that is present but zero yields an absent multiple even
though revenue is present and nonzero, while the claimed formula would give
the value zero divided by five. -/
theorem C8_counterexample :
    (buildTargetData "NSE" "T.NS" "T" none metricsZero none (some finEVZero)
        1).evRevenueMultiple = none ∧
    ((some finEVZero).bind FinancialsBundle.defaultKeyStatistics).bind
      KeyStatistics.enterpriseValue = some 0 ∧
    ((some finEVZero).bind FinancialsBundle.financialData).bind
      FinancialData.totalRevenue = some 5 ∧
    (5 : ℚ) ≠ 0 ∧
    (none : Option ℚ) ≠ some ((numOr0 (some 0) * 1) / (numOr0 (some 5) * 1)) := by
  refine ⟨?_, rfl, rfl, by norm_num, by simp⟩
  simp [buildTargetData, numTruthy, finEVZero]

/-- C8 amended: whenever enterprise value and revenue are both present and
both nonzero, the emitted multiple equals the normalized enterprise value
divided by the normalized revenue, that is, the raw enterprise value times
the price factor over the raw revenue times the financial factor, so a
normalized numerator is never mixed with a non-normalized denominator;
when either field is absent or zero the multiple is absent. Stated for the
target payload and for the peer payload. -/
theorem C8_multiple (exchange fullTicker tickerInput : String) (period : Option String)
    (metrics : Metrics) (quote : Option QuoteData) (financials : Option FinancialsBundle)
    (slug sector : String) (pMet : Option Metrics) (fx : ℚ) :
    (numTruthy ((financials.bind FinancialsBundle.defaultKeyStatistics).bind
        KeyStatistics.enterpriseValue) = true →
     numTruthy ((financials.bind FinancialsBundle.financialData).bind
        FinancialData.totalRevenue) = true →
      (buildTargetData exchange fullTicker tickerInput period metrics quote financials
          fx).evRevenueMultiple =
        some ((numOr0 ((financials.bind FinancialsBundle.defaultKeyStatistics).bind
            KeyStatistics.enterpriseValue) *
            (if tradingCurrencyOf quote = "USD" then fx else 1)) /
          (numOr0 ((financials.bind FinancialsBundle.financialData).bind
            FinancialData.totalRevenue) *
            (if financialCurrencyOf financials (tradingCurrencyOf quote) = "USD"
             then fx else 1))) ∧
      (peerRowOf slug sector pMet quote financials fx).evRevenueMultiple =
        some ((numOr0 ((financials.bind FinancialsBundle.defaultKeyStatistics).bind
            KeyStatistics.enterpriseValue) *
            (if tradingCurrencyOf quote = "USD" then fx else 1)) /
          (numOr0 ((financials.bind FinancialsBundle.financialData).bind
            FinancialData.totalRevenue) *
            (if financialCurrencyOf financials (tradingCurrencyOf quote) = "USD"
             then fx else 1)))) ∧
    (¬(numTruthy ((financials.bind FinancialsBundle.defaultKeyStatistics).bind
        KeyStatistics.enterpriseValue) = true ∧
       numTruthy ((financials.bind FinancialsBundle.financialData).bind
        FinancialData.totalRevenue) = true) →
      (buildTargetData exchange fullTicker tickerInput period metrics quote financials
          fx).evRevenueMultiple = none ∧
      (peerRowOf slug sector pMet quote financials fx).evRevenueMultiple = none) := by
  constructor
  · intro h1 h2
    have hc : numTruthy ((financials.bind FinancialsBundle.defaultKeyStatistics).bind
        KeyStatistics.enterpriseValue) = true ∧
        numTruthy ((financials.bind FinancialsBundle.financialData).bind
          FinancialData.totalRevenue) = true := ⟨h1, h2⟩
    simp only [buildTargetData, peerRowOf, if_pos hc]
    refine ⟨?_, ?_⟩ <;> rw [div_div_eq_mul_div]
  · intro h
    simp only [buildTargetData, peerRowOf, if_neg h]
    trivial

theorem C8_multiple_witness :
    (buildTargetData "NSE" "T.NS" "T" none metricsZero none (some finEVRev)
        7).evRevenueMultiple =
      some ((numOr0 (((some finEVRev).bind FinancialsBundle.defaultKeyStatistics).bind
          KeyStatistics.enterpriseValue) *
          (if tradingCurrencyOf none = "USD" then (7 : ℚ) else 1)) /
        (numOr0 (((some finEVRev).bind FinancialsBundle.financialData).bind
          FinancialData.totalRevenue) *
          (if financialCurrencyOf (some finEVRev) (tradingCurrencyOf none) = "USD"
           then (7 : ℚ) else 1))) ∧
    (buildTargetData "NSE" "T.NS" "T" none metricsZero none none
        7).evRevenueMultiple = none := by
  constructor
  · exact ((C8_multiple "NSE" "T.NS" "T" none metricsZero none (some finEVRev) "P.NS" "S"
      none 7).1 (by norm_num [finEVRev, numTruthy]) (by norm_num [finEVRev, numTruthy])).1
  · exact ((C8_multiple "NSE" "T.NS" "T" none metricsZero none none "P.NS" "S"
      none 7).2 (by simp [numTruthy])).1

theorem setDedup_foldl_nodup (l : List String) :
    ∀ acc : List String, acc.Nodup →
      (l.foldl (fun acc s => if s ∈ acc then acc else acc ++ [s]) acc).Nodup := by
  induction l with
  | nil => intro acc h; exact h
  | cons s t ih =>
    intro acc h
    simp only [List.foldl_cons]
    by_cases hs : s ∈ acc
    · rw [if_pos hs]
      exact ih acc h
    · rw [if_neg hs]
      refine ih _ ?_
      rw [List.nodup_append]
      refine ⟨h, List.nodup_singleton s, ?_⟩
      intro a ha hb
      rw [List.mem_singleton] at hb
      exact hs (hb ▸ ha)

theorem setDedup_nodup (l : List String) : (setDedup l).Nodup :=
  setDedup_foldl_nodup l [] List.nodup_nil

theorem byMarketCapDesc_trans (a b c : PeerInfo) :
    byMarketCapDesc a b → byMarketCapDesc b c → byMarketCapDesc a c := by
  simp only [byMarketCapDesc, decide_eq_true_eq]
  intro h1 h2
  exact le_trans h2 h1

theorem byMarketCapDesc_total (a b : PeerInfo) :
    byMarketCapDesc a b || byMarketCapDesc b a := by
  simp only [byMarketCapDesc, Bool.or_eq_true, decide_eq_true_eq]
  exact le_total _ _

theorem verifyCandidate_slug (oracle : PeersOracle) (industryList : List IndustryEntry)
    (ticker : String) (exchangeRate : ℚ) (targetIndustry : String)
    (excelIndustry : Option String) (symbol : String) (p : PeerInfo)
    (h : verifyCandidate oracle industryList ticker exchangeRate targetIndustry
      excelIndustry symbol = some p) :
    p.slug = symbol ∧ symbol ≠ ticker ∧
    ∃ s, oracle.summaries symbol = some s ∧
      p.marketCap = numOr0 s.summaryDetailMarketCap *
        (if strOr ((oracle.quote symbol).bind QuoteData.currency)
            (strOr s.financialCurrency "INR") = "USD" then exchangeRate else 1) := by
  simp only [verifyCandidate] at h
  split at h
  · exact absurd h (by simp)
  next s hs =>
    split at h
    · exact absurd h (by simp)
    next ap hap =>
      split at h
      · exact absurd h (by simp)
      next ht =>
        split at h
        · obtain rfl := (Option.some_injective _ h).symm
          exact ⟨rfl, ht, s, hs, rfl⟩
        · exact absurd h (by simp)

theorem candidateSymbols_nodup (oracle : PeersOracle) (industryList : List IndustryEntry)
    (ticker : String) (hrec : oracle.recommended.Nodup) :
    (candidateSymbols oracle industryList ticker).Nodup := by
  simp only [candidateSymbols]
  split
  · split
    · exact hrec
    · exact setDedup_nodup _
  · exact hrec

theorem map_slug_filterMap_sublist (f : String → Option PeerInfo)
    (hf : ∀ s p, f s = some p → p.slug = s) :
    ∀ l : List String, ((l.filterMap f).map PeerInfo.slug).Sublist l := by
  intro l
  induction l with
  | nil => simp
  | cons s t ih =>
    rw [List.filterMap_cons]
    rcases hfs : f s with _ | p
    · exact ih.cons _
    · rw [List.map_cons, hf s p hfs]
      exact List.cons_sublist_cons.2 ih

theorem verifiedPeersList_slug_sublist (oracle : PeersOracle)
    (industryList : List IndustryEntry) (ticker : String) (exchangeRate : ℚ) :
    ((verifiedPeersList oracle industryList ticker exchangeRate).map PeerInfo.slug).Sublist
      ((candidateSymbols oracle industryList ticker).take 20) := by
  simp only [verifiedPeersList]
  split
  · simp
  · split
    · simp
    · exact map_slug_filterMap_sublist _
        (fun s p h => (verifyCandidate_slug _ _ _ _ _ _ _ _ h).1) _

theorem verifiedPeersList_not_ticker (oracle : PeersOracle)
    (industryList : List IndustryEntry) (ticker : String) (exchangeRate : ℚ)
    (p : PeerInfo) (hp : p ∈ verifiedPeersList oracle industryList ticker exchangeRate) :
    p.slug ≠ ticker := by
  simp only [verifiedPeersList] at hp
  split at hp
  · simp at hp
  · split at hp
    · simp at hp
    · rw [List.mem_filterMap] at hp
      obtain ⟨sym, -, hsym⟩ := hp
      obtain ⟨rfl, hne, -⟩ := verifyCandidate_slug _ _ _ _ _ _ _ _ hsym
      exact hne

theorem getPeers_pairwise (oracle : PeersOracle) (industryList : List IndustryEntry)
    (ticker : String) (fx : ℚ) :
    (getPeers oracle industryList ticker fx).Pairwise
      (fun a b => b.marketCap ≤ a.marketCap) := by
  have hs := List.sorted_mergeSort
    byMarketCapDesc_trans byMarketCapDesc_total
    (verifiedPeersList oracle industryList ticker fx)
  have hs2 : ((verifiedPeersList oracle industryList ticker fx).mergeSort
      byMarketCapDesc).Pairwise (fun a b => b.marketCap ≤ a.marketCap) :=
    hs.imp (fun h => of_decide_eq_true h)
  exact hs2.sublist (List.take_sublist _ _)

/-- C5 amended: for every discovery run, the returned peer list has length
at most ten, never contains the target symbol, is sorted descending by
normalized market cap, keeps ties in first-discovered order because the
sort is stable, and is truncated to ten only after sorting; it contains no
duplicate symbols provided the recommender list is duplicate-free — the
union with directory peers is de-duplicated, but a duplicate arriving from
the recommender survives when the directory contributes no industry match
(see the counterexample). -/
theorem C5_peer_invariants (oracle : PeersOracle) (industryList : List IndustryEntry)
    (ticker : String) (fx : ℚ) (hrec : oracle.recommended.Nodup) :
    (getPeers oracle industryList ticker fx).length ≤ 10 ∧
    ticker ∉ (getPeers oracle industryList ticker fx).map PeerInfo.slug ∧
    (getPeers oracle industryList ticker fx).Pairwise
      (fun a b => b.marketCap ≤ a.marketCap) ∧
    ((getPeers oracle industryList ticker fx).map PeerInfo.slug).Nodup ∧
    (∀ a b : PeerInfo,
      [a, b].Sublist (verifiedPeersList oracle industryList ticker fx) →
      b.marketCap ≤ a.marketCap →
      [a, b].Sublist ((verifiedPeersList oracle industryList ticker fx).mergeSort
        byMarketCapDesc)) ∧
    getPeers oracle industryList ticker fx =
      ((verifiedPeersList oracle industryList ticker fx).mergeSort byMarketCapDesc).take 10
    := by
  refine ⟨?_, ?_, ?_, ?_, ?_, rfl⟩
  · exact List.length_take_le _ _
  · intro hmem
    rw [List.mem_map] at hmem
    obtain ⟨p, hp, hslug⟩ := hmem
    have hp2 : p ∈ (verifiedPeersList oracle industryList ticker fx).mergeSort
        byMarketCapDesc := List.mem_of_mem_take hp
    have hp3 : p ∈ verifiedPeersList oracle industryList ticker fx :=
      (List.mergeSort_perm _ _).mem_iff.1 hp2
    exact verifiedPeersList_not_ticker _ _ _ _ p hp3 hslug
  · exact getPeers_pairwise oracle industryList ticker fx
  · have hcand : ((candidateSymbols oracle industryList ticker).take 20).Nodup :=
      (candidateSymbols_nodup oracle industryList ticker hrec).sublist
        (List.take_sublist _ _)
    have h1 : ((verifiedPeersList oracle industryList ticker fx).map PeerInfo.slug).Nodup :=
      hcand.sublist (verifiedPeersList_slug_sublist oracle industryList ticker fx)
    have h2 : (((verifiedPeersList oracle industryList ticker fx).mergeSort
        byMarketCapDesc).map PeerInfo.slug).Nodup :=
      (((List.mergeSort_perm _ _).map PeerInfo.slug).nodup_iff).2 h1
    have h3 : (getPeers oracle industryList ticker fx).map PeerInfo.slug =
        (((verifiedPeersList oracle industryList ticker fx).mergeSort
          byMarketCapDesc).map PeerInfo.slug).take 10 := by
      unfold getPeers
      rw [List.map_take]
    rw [h3]
    exact h2.sublist (List.take_sublist _ _)
  · intro a b hsub hle
    exact List.pair_sublist_mergeSort byMarketCapDesc_trans byMarketCapDesc_total
      (decide_eq_true hle) hsub

/-- C5 counterexample: with no directory match, the candidate list is the
raw recommender list, so a symbol recommended twice is verified twice and
the returned peer list contains it twice; the no-duplicates part of the
claim fails on this run. -/
theorem C5_counterexample :
    (getPeers oracleDup [] "T.NS" 1).map PeerInfo.slug = ["P.NS", "P.NS"] ∧
    ¬ ((getPeers oracleDup [] "T.NS" 1).map PeerInfo.slug).Nodup := by
  have hv : verifiedPeersList oracleDup [] "T.NS" 1 = [qDup, qDup] := rfl
  have hsort : (verifiedPeersList oracleDup [] "T.NS" 1).mergeSort byMarketCapDesc =
      [qDup, qDup] := by
    rw [hv]
    apply List.mergeSort_of_sorted
    refine List.pairwise_cons.2 ⟨?_, List.pairwise_singleton _ _⟩
    intro b hb
    rw [List.mem_singleton] at hb
    subst hb
    exact decide_eq_true (le_refl _)
  have hmap : (getPeers oracleDup [] "T.NS" 1).map PeerInfo.slug = ["P.NS", "P.NS"] := by
    unfold getPeers
    rw [hsort]
    rfl
  refine ⟨hmap, ?_⟩
  rw [hmap]
  simp

theorem C5_peer_invariants_witness :
    (getPeers oracleOne [] "T.NS" 1).length ≤ 10 ∧
    "T.NS" ∉ (getPeers oracleOne [] "T.NS" 1).map PeerInfo.slug ∧
    (getPeers oracleOne [] "T.NS" 1).Pairwise (fun a b => b.marketCap ≤ a.marketCap) ∧
    ((getPeers oracleOne [] "T.NS" 1).map PeerInfo.slug).Nodup ∧
    (∀ a b : PeerInfo, [a, b].Sublist (verifiedPeersList oracleOne [] "T.NS" 1) →
      b.marketCap ≤ a.marketCap →
      [a, b].Sublist ((verifiedPeersList oracleOne [] "T.NS" 1).mergeSort byMarketCapDesc)) ∧
    getPeers oracleOne [] "T.NS" 1 =
      ((verifiedPeersList oracleOne [] "T.NS" 1).mergeSort byMarketCapDesc).take 10 :=
  C5_peer_invariants oracleOne [] "T.NS" 1 (by simp [oracleOne])

theorem processPeer_congr (marketData : List Row) (fx : ℚ)
    (fetch fetch2 : String → PeerFetchResult) (p : PeerInfo)
    (h : fetch2 p.slug = fetch p.slug) :
    processPeer marketData fx fetch2 p = processPeer marketData fx fetch p := by
  unfold processPeer
  rw [h]

theorem filterMap_processPeer_drop (marketData : List Row) (fx : ℚ)
    (fetch fetch2 : String → PeerFetchResult) (x : PeerInfo)
    (hx : (fetch2 x.slug).history = none)
    (ho : ∀ p : PeerInfo, p.slug ≠ x.slug → fetch2 p.slug = fetch p.slug) :
    ∀ peerList : List PeerInfo,
      (peerList.map (processPeer marketData fx fetch2)).filterMap id =
      ((peerList.filter (fun p => p.slug != x.slug)).map
        (processPeer marketData fx fetch)).filterMap id := by
  intro peerList
  induction peerList with
  | nil => rfl
  | cons p t ih =>
    by_cases hps : p.slug = x.slug
    · have hnone : processPeer marketData fx fetch2 p = none := by
        unfold processPeer
        rw [hps, hx]
      have hfilter : ¬((p.slug != x.slug) = true) := by simp [hps]
      rw [List.map_cons, List.filterMap_cons_none (by rw [hnone]; rfl : id (processPeer
          marketData fx fetch2 p) = none),
        List.filter_cons, if_neg hfilter]
      exact ih
    · have heq : processPeer marketData fx fetch2 p = processPeer marketData fx fetch p :=
        processPeer_congr _ _ _ _ _ (ho p hps)
      have hfilter : (p.slug != x.slug) = true := by simp [hps]
      rw [List.filter_cons, if_pos hfilter]
      rcases hr : processPeer marketData fx fetch p with _ | r
      · rw [List.map_cons, List.filterMap_cons_none (by rw [heq, hr]; rfl : id (processPeer
            marketData fx fetch2 p) = none),
          List.map_cons, List.filterMap_cons_none (by rw [hr]; rfl : id (processPeer
            marketData fx fetch p) = none)]
        exact ih
      · rw [List.map_cons, List.filterMap_cons_some (by rw [heq, hr]; rfl : id (processPeer
            marketData fx fetch2 p) = some r),
          List.map_cons, List.filterMap_cons_some (by rw [hr]; rfl : id (processPeer
            marketData fx fetch p) = some r), ih]

/-- C7: a surviving peer whose metrics come out absent is still included:
its row is produced with every statistical field null and, whenever the
peer is in the processed list, that row is a member of the final sorted
array; and a history-fetch failure for one candidate removes exactly that
candidate: its own row is null, the row of every other peer is unchanged,
and the final array equals the one computed from the peer list without the
failed candidate, so discovery is never aborted. -/
theorem C7_failure_isolation (marketData : List Row) (fx : ℚ)
    (fetch fetch2 : String → PeerFetchResult) (peerList : List PeerInfo)
    (peer x : PeerInfo) :
    (∀ pData, (fetch peer.slug).history = some pData → 2 ≤ pData.length →
      calculateFinancialMetrics ((alignSeries pData marketData).map Prod.fst)
        ((alignSeries pData marketData).map Prod.snd) = none →
      processPeer marketData fx fetch peer =
        some (peerRowOf peer.slug peer.sector none (fetch peer.slug).quote
          (fetch peer.slug).financials fx) ∧
      (peerRowOf peer.slug peer.sector none (fetch peer.slug).quote
        (fetch peer.slug).financials fx).beta = none ∧
      (peerRowOf peer.slug peer.sector none (fetch peer.slug).quote
        (fetch peer.slug).financials fx).volatility = none ∧
      (peerRowOf peer.slug peer.sector none (fetch peer.slug).quote
        (fetch peer.slug).financials fx).alpha = none ∧
      (peerRowOf peer.slug peer.sector none (fetch peer.slug).quote
        (fetch peer.slug).financials fx).correlation = none ∧
      (peerRowOf peer.slug peer.sector none (fetch peer.slug).quote
        (fetch peer.slug).financials fx).rSquared = none ∧
      (peer ∈ peerList →
        peerRowOf peer.slug peer.sector none (fetch peer.slug).quote
          (fetch peer.slug).financials fx ∈ finalPeers marketData fx fetch peerList)) ∧
    ((fetch2 x.slug).history = none →
      (∀ p : PeerInfo, p.slug ≠ x.slug → fetch2 p.slug = fetch p.slug) →
      processPeer marketData fx fetch2 x = none ∧
      (∀ p : PeerInfo, p.slug ≠ x.slug →
        processPeer marketData fx fetch2 p = processPeer marketData fx fetch p) ∧
      finalPeers marketData fx fetch2 peerList =
        finalPeers marketData fx fetch (peerList.filter (fun p => p.slug != x.slug))) := by
  constructor
  · intro pData hh hlen hmet
    have hproc : processPeer marketData fx fetch peer =
        some (peerRowOf peer.slug peer.sector none (fetch peer.slug).quote
          (fetch peer.slug).financials fx) := by
      unfold processPeer
      rw [hh]
      show (if pData.length < 2 then none else
        some (peerRowOf peer.slug peer.sector
          (calculateFinancialMetrics ((alignSeries pData marketData).map Prod.fst)
            ((alignSeries pData marketData).map Prod.snd))
          (fetch peer.slug).quote (fetch peer.slug).financials fx)) = _
      rw [if_neg (by omega), hmet]
    refine ⟨hproc, rfl, rfl, rfl, rfl, rfl, ?_⟩
    intro hpl
    unfold finalPeers
    rw [(List.mergeSort_perm _ _).mem_iff]
    rw [List.mem_filterMap]
    refine ⟨some (peerRowOf peer.slug peer.sector none (fetch peer.slug).quote
      (fetch peer.slug).financials fx), ?_, rfl⟩
    rw [List.mem_map]
    exact ⟨peer, hpl, hproc⟩
  · intro hx ho
    have hxnone : processPeer marketData fx fetch2 x = none := by
      unfold processPeer
      rw [hx]
    refine ⟨hxnone, ?_, ?_⟩
    · intro p hps
      exact processPeer_congr _ _ _ _ _ (ho p hps)
    · unfold finalPeers
      rw [filterMap_processPeer_drop marketData fx fetch fetch2 x hx ho peerList]

theorem C7_failure_isolation_witness :
    processPeer cxMarket 1 fetchOK peerP =
      some (peerRowOf peerP.slug peerP.sector none (fetchOK peerP.slug).quote
        (fetchOK peerP.slug).financials 1) ∧
    (peerRowOf peerP.slug peerP.sector none (fetchOK peerP.slug).quote
      (fetchOK peerP.slug).financials 1).beta = none ∧
    (peerRowOf peerP.slug peerP.sector none (fetchOK peerP.slug).quote
      (fetchOK peerP.slug).financials 1).volatility = none ∧
    peerRowOf peerP.slug peerP.sector none (fetchOK peerP.slug).quote
      (fetchOK peerP.slug).financials 1 ∈ finalPeers cxMarket 1 fetchOK [peerP, peerX] ∧
    processPeer cxMarket 1 fetchBad peerX = none ∧
    finalPeers cxMarket 1 fetchBad [peerP, peerX] =
      finalPeers cxMarket 1 fetchOK
        ([peerP, peerX].filter (fun p => p.slug != peerX.slug)) := by
  have h1 : (alignSeries [Row.mk "a" (some 1), Row.mk "b" (some 2)] cxMarket).map
      Prod.fst = [1, 2] := rfl
  have h2 : (alignSeries [Row.mk "a" (some 1), Row.mk "b" (some 2)] cxMarket).map
      Prod.snd = [1, 2] := rfl
  have hmet : calculateFinancialMetrics
      ((alignSeries [Row.mk "a" (some 1), Row.mk "b" (some 2)] cxMarket).map Prod.fst)
      ((alignSeries [Row.mk "a" (some 1), Row.mk "b" (some 2)] cxMarket).map Prod.snd) =
      none := by
    rw [h1, h2]
    exact (calculateFinancialMetrics_eq_none_iff _ _ rfl).2 (Or.inl (by decide))
  have hmain := C7_failure_isolation cxMarket 1 fetchOK fetchBad [peerP, peerX] peerP peerX
  have ha := hmain.1 [Row.mk "a" (some 1), Row.mk "b" (some 2)] rfl (by decide) hmet
  have hb := hmain.2 rfl (fun p hp => by
    show (if p.slug = "X" then PeerFetchResult.mk none none none else fetchOK p.slug) =
      fetchOK p.slug
    have hp2 : ¬(p.slug = "X") := hp
    rw [if_neg hp2])
  exact ⟨ha.1, ha.2.1, ha.2.2.1, ha.2.2.2.2.2.2 (by simp), hb.1, hb.2.2⟩

theorem verifiedPeersList_marketCap (oracle : PeersOracle)
    (industryList : List IndustryEntry) (ticker : String) (fx : ℚ) (p : PeerInfo)
    (hp : p ∈ verifiedPeersList oracle industryList ticker fx) :
    ∃ s, oracle.summaries p.slug = some s ∧
      p.marketCap = numOr0 s.summaryDetailMarketCap *
        (if strOr ((oracle.quote p.slug).bind QuoteData.currency)
            (strOr s.financialCurrency "INR") = "USD" then fx else 1) := by
  simp only [verifiedPeersList] at hp
  split at hp
  · simp at hp
  · split at hp
    · simp at hp
    · rw [List.mem_filterMap] at hp
      obtain ⟨sym, -, hsym⟩ := hp
      obtain ⟨hslug, -, s, hs, hmc⟩ := verifyCandidate_slug _ _ _ _ _ _ _ _ hsym
      subst hslug
      exact ⟨s, hs, hmc⟩

/-- C10: an unavailable upstream value for a monetary field is emitted as
zero after the currency factor rather than as absent, for the target
payload and for each peer payload; an unavailable ratio field is emitted
as absent; and in peer discovery a verified candidate whose summary lacks
a market cap is ranked with a normalized market cap of exactly zero, so in
the returned list every peer with positive market cap precedes it. -/
theorem C10_absent_defaults (exchange fullTicker tickerInput : String)
    (period : Option String) (metrics : Metrics) (quote : Option QuoteData)
    (financials : Option FinancialsBundle) (slug sector : String) (pMet : Option Metrics)
    (fx : ℚ) (oracle : PeersOracle) (industryList : List IndustryEntry) (ticker : String)
    (p a b : PeerInfo) :
    (quote.bind QuoteData.marketCap = none →
      (buildTargetData exchange fullTicker tickerInput period metrics quote financials
        fx).marketCap = 0 ∧
      (peerRowOf slug sector pMet quote financials fx).marketCap = 0) ∧
    ((financials.bind FinancialsBundle.financialData).bind FinancialData.totalRevenue =
        none →
      (buildTargetData exchange fullTicker tickerInput period metrics quote financials
        fx).revenue = 0 ∧
      (peerRowOf slug sector pMet quote financials fx).revenue = 0) ∧
    ((financials.bind FinancialsBundle.defaultKeyStatistics).bind
        KeyStatistics.enterpriseValue = none →
      (buildTargetData exchange fullTicker tickerInput period metrics quote financials
        fx).enterpriseValue = 0 ∧
      (peerRowOf slug sector pMet quote financials fx).enterpriseValue = 0) ∧
    ((financials.bind FinancialsBundle.financialData).bind FinancialData.ebitda = none →
      (buildTargetData exchange fullTicker tickerInput period metrics quote financials
        fx).ebitda = 0 ∧
      (peerRowOf slug sector pMet quote financials fx).ebitda = 0) ∧
    ((financials.bind FinancialsBundle.summaryDetail).bind SummaryDetailData.trailingPE =
        none →
      (buildTargetData exchange fullTicker tickerInput period metrics quote financials
        fx).peRatio = none ∧
      (peerRowOf slug sector pMet quote financials fx).peRatio = none) ∧
    ((financials.bind FinancialsBundle.defaultKeyStatistics).bind
        KeyStatistics.priceToBook = none →
      (buildTargetData exchange fullTicker tickerInput period metrics quote financials
        fx).pbRatio = none ∧
      (peerRowOf slug sector pMet quote financials fx).pbRatio = none) ∧
    ((financials.bind FinancialsBundle.summaryDetail).bind
        SummaryDetailData.dividendYield = none →
      (buildTargetData exchange fullTicker tickerInput period metrics quote financials
        fx).dividendYield = none ∧
      (peerRowOf slug sector pMet quote financials fx).dividendYield = none) ∧
    ((financials.bind FinancialsBundle.financialData).bind FinancialData.debtToEquity =
        none →
      (buildTargetData exchange fullTicker tickerInput period metrics quote financials
        fx).debtToEquity = none ∧
      (peerRowOf slug sector pMet quote financials fx).debtToEquity = none) ∧
    ((financials.bind FinancialsBundle.financialData).bind FinancialData.profitMargins =
        none →
      (buildTargetData exchange fullTicker tickerInput period metrics quote financials
        fx).profitMargin = none ∧
      (peerRowOf slug sector pMet quote financials fx).profitMargin = none) ∧
    (p ∈ getPeers oracle industryList ticker fx →
      (oracle.summaries p.slug).bind SummaryData.summaryDetailMarketCap = none →
      p.marketCap = 0) ∧
    ([a, b].Sublist (getPeers oracle industryList ticker fx) →
      a.marketCap = 0 → b.marketCap ≤ 0) := by
  refine ⟨?_, ?_, ?_, ?_, ?_, ?_, ?_, ?_, ?_, ?_, ?_⟩
  · intro h
    constructor <;> simp [buildTargetData, peerRowOf, h, numOr0]
  · intro h
    constructor <;> simp [buildTargetData, peerRowOf, h, numOr0]
  · intro h
    constructor <;> simp [buildTargetData, peerRowOf, h, numOr0]
  · intro h
    constructor <;> simp [buildTargetData, peerRowOf, h, numOr0]
  · intro h
    constructor <;> simp [buildTargetData, peerRowOf, h]
  · intro h
    constructor <;> simp [buildTargetData, peerRowOf, h]
  · intro h
    constructor <;> simp [buildTargetData, peerRowOf, h]
  · intro h
    constructor <;> simp [buildTargetData, peerRowOf, h]
  · intro h
    constructor <;> simp [buildTargetData, peerRowOf, h]
  · intro hp hnone
    have hp2 := List.mem_of_mem_take hp
    have hp3 := (List.mergeSort_perm _ _).mem_iff.1 hp2
    obtain ⟨s, hs, hmc⟩ := verifiedPeersList_marketCap _ _ _ _ _ hp3
    rw [hs, Option.some_bind] at hnone
    rw [hmc, hnone]
    simp [numOr0]
  · intro hsub hz
    have hpw := getPeers_pairwise oracle industryList ticker fx
    have hba := List.pairwise_iff_forall_sublist.1 hpw hsub
    rw [hz] at hba
    exact hba

theorem C10_absent_defaults_witness :
    ((buildTargetData "NSE" "T.NS" "T" none metricsZero none none 1).marketCap = 0 ∧
      (peerRowOf "P" "S" none none none 1).marketCap = 0) ∧
    ((buildTargetData "NSE" "T.NS" "T" none metricsZero none none 1).revenue = 0 ∧
      (peerRowOf "P" "S" none none none 1).revenue = 0) ∧
    ((buildTargetData "NSE" "T.NS" "T" none metricsZero none none 1).peRatio = none ∧
      (peerRowOf "P" "S" none none none 1).peRatio = none) ∧
    qP.marketCap = 0 ∧
    qQ.marketCap ≤ 0 := by
  have hg : getPeers oracleTwo [] "T.NS" 1 = [qP, qQ] := by
    have hv : verifiedPeersList oracleTwo [] "T.NS" 1 = [qP, qQ] := rfl
    have hsort : (verifiedPeersList oracleTwo [] "T.NS" 1).mergeSort byMarketCapDesc =
        [qP, qQ] := by
      rw [hv]
      apply List.mergeSort_of_sorted
      refine List.pairwise_cons.2 ⟨?_, List.pairwise_singleton _ _⟩
      intro c hc
      rw [List.mem_singleton] at hc
      subst hc
      exact decide_eq_true (le_refl _)
    unfold getPeers
    rw [hsort]
    rfl
  have hmain := C10_absent_defaults "NSE" "T.NS" "T" none metricsZero none none "P" "S"
    none 1 oracleTwo [] "T.NS" qP qP qQ
  have hmem : qP ∈ getPeers oracleTwo [] "T.NS" 1 := by
    rw [hg]
    simp
  have hsub : [qP, qQ].Sublist (getPeers oracleTwo [] "T.NS" 1) := by
    rw [hg]
  have hzP : qP.marketCap = 0 := by
    show (0 : ℚ) * 1 = 0
    norm_num
  refine ⟨hmain.1 rfl, hmain.2.1 rfl, hmain.2.2.2.2.1 rfl, hzP, ?_⟩
  exact hmain.2.2.2.2.2.2.2.2.2.2 hsub hzP

end Analyser

